import Mathlib

/-
Shallow embedding of the ingestion pipeline of rag-myData.ipynb.

Strings are modelled as Lean `String`s (lists of characters); the two
`re.sub` calls of `clean_markdown_content` are modelled by an explicit
leftmost scanner with greedy, longest-first backtracking over the label
group, which is exactly the behaviour of Python's backtracking engine on
these two patterns.  External collaborators (file system, the PDF/DOCX/
CSV/XLSX extractors, the embedding service, the uuid generator) enter as
function parameters of the definitions that consume them.
-/

set_option maxRecDepth 4000

/-- Python-style whitespace test: the six ASCII whitespace characters
recognized by `str.split()` and `str.strip()`. -/
def isPySpace (c : Char) : Bool :=
  c = ' ' || c = '\t' || c = '\n' || c = '\r' || c = Char.ofNat 11 || c = Char.ofNat 12

/-- Boolean prefix test on character lists. -/
def isPre : List Char → List Char → Bool
  | [], _ => true
  | _ :: _, [] => false
  | p :: ps, l :: ls => p == l && isPre ps ls

/-- First element of Python `s.split(pat)`: the prefix of the list that
precedes the first occurrence of `pat` (the whole list if `pat` does not
occur). -/
def splitHeadOn (pat : List Char) : List Char → List Char
  | [] => []
  | c :: cs => if isPre pat (c :: cs) then [] else c :: splitHeadOn pat cs

/-- Python `s.split()` word scanner: runs of non-whitespace characters,
with whitespace runs as separators and no empty words.  `cur` is the
current word accumulated in reverse. -/
def pyWordsAux : List Char → List Char → List (List Char)
  | [], cur => if cur.isEmpty then [] else [cur.reverse]
  | c :: cs, cur =>
    if isPySpace c then
      if cur.isEmpty then pyWordsAux cs [] else cur.reverse :: pyWordsAux cs []
    else pyWordsAux cs (c :: cur)

/-- The words of Python `s.split()` over a character list. -/
def pyWords (l : List Char) : List (List Char) := pyWordsAux l []

/-- Python `s.strip()` on a character list: drop leading and trailing
whitespace. -/
def pyStripCL (l : List Char) : List Char :=
  ((l.dropWhile isPySpace).reverse.dropWhile isPySpace).reverse

/-- Python `s.strip()` on strings. -/
def pyStripStr (s : String) : String := String.mk (pyStripCL s.data)

/-- Python `s.endswith(suffix)`. -/
def pyEndsWith (s suffix : String) : Bool :=
  isPre suffix.data.reverse s.data.reverse

/-- Tail of a link/image match after the label: matches `\]\(([^\)]+)\)`,
i.e. a literal `](`, then one or more characters other than `)`, then a
literal `)`.  Returns the remainder after the closing parenthesis.  The
content class excludes the closing parenthesis, so no backtracking can
occur inside it. -/
def tryTail (t : List Char) : Option (List Char) :=
  match t with
  | ']' :: '(' :: u =>
    let cont := u.takeWhile (fun c => c ≠ ')')
    if cont.isEmpty then none
    else
      match u.drop cont.length with
      | ')' :: rest => some rest
      | _ => none
  | _ => none

/-- Backtracking search for the label of `\[([^\[]+)\]\(([^\)]+)\)` after
the opening bracket: label lengths are tried longest first (Python's
greedy `+`), a label has at least one character.  `rest` is the text after
the opening `[`; the argument is the label length currently tried.
Returns the label and the remainder after the whole match. -/
def tryLabel (rest : List Char) : Nat → Option (List Char × List Char)
  | 0 => none
  | n + 1 =>
    match tryTail (rest.drop (n + 1)) with
    | some r2 => some (rest.take (n + 1), r2)
    | none => tryLabel rest n

/-- Match of the link pattern `\[([^\[]+)\]\(([^\)]+)\)` at the head of the
list, following Python's leftmost-greedy semantics. -/
def matchLink (l : List Char) : Option (List Char × List Char) :=
  match l with
  | [] => none
  | c :: cs =>
    if c = '[' then tryLabel cs ((cs.takeWhile (fun x => x ≠ '[')).length)
    else none

/-- Backtracking label search for the image pattern (label may be empty:
`[^\[]*`). -/
def tryLabelI (rest : List Char) : Nat → Option (List Char)
  | 0 =>
    match tryTail rest with
    | some r2 => some r2
    | none => none
  | n + 1 =>
    match tryTail (rest.drop (n + 1)) with
    | some r2 => some r2
    | none => tryLabelI rest n

/-- Match of the image pattern `\!\[([^\[]*)\]\(([^\)]+)\)` at the head of
the list. -/
def matchImage (l : List Char) : Option (List Char) :=
  match l with
  | c1 :: c2 :: cs =>
    if c1 = '!' then
      if c2 = '[' then tryLabelI cs ((cs.takeWhile (fun x => x ≠ '[')).length)
      else none
    else none
  | _ => none

/-- Fuelled scanner for `re.sub(link_pattern, r'\1', s)`: non-overlapping
leftmost matches replaced by their label; every step consumes at least one
character and one unit of fuel, so fuel = length is always sufficient. -/
def subLinksF : Nat → List Char → List Char
  | 0, l => l
  | _ + 1, [] => []
  | n + 1, c :: cs =>
    match matchLink (c :: cs) with
    | some (lab, r2) => lab ++ subLinksF n r2
    | none => c :: subLinksF n cs

/-- Python `re.sub(r'\[([^\[]+)\]\(([^\)]+)\)', r'\1', s)` on a character
list. -/
def subLinks (l : List Char) : List Char := subLinksF l.length l

/-- Fuelled scanner for `re.sub(image_pattern, '', s)`. -/
def subImagesF : Nat → List Char → List Char
  | 0, l => l
  | _ + 1, [] => []
  | n + 1, c :: cs =>
    match matchImage (c :: cs) with
    | some r2 => subImagesF n r2
    | none => c :: subImagesF n cs

/-- Python `re.sub(r'\!\[([^\[]*)\]\(([^\)]+)\)', '', s)` on a character
list. -/
def subImages (l : List Char) : List Char := subImagesF l.length l

/-- Python `s.replace('**', '')`: left-to-right removal of non-overlapping
occurrences of two consecutive asterisks. -/
def removeStars : List Char → List Char
  | [] => []
  | [c] => [c]
  | c :: d :: cs =>
    if c = '*' ∧ d = '*' then removeStars cs
    else c :: removeStars (d :: cs)

/-- The notebook's `clean_markdown_content`: substitute markdown links by
their label, substitute image syntax by nothing, remove all `**`, remove
all newline characters — in exactly this order. -/
def clean_markdown_content (s : String) : String :=
  String.mk ((removeStars (subImages (subLinks s.data))).filter (fun c => c ≠ '\n'))

/-- The notebook's second (shadowing) definition of
`num_tokens_from_string`: `len(content.split())`, the number of
whitespace-separated words.  This later definition is the one in scope
when the chunking loop of cell 17 runs. -/
def num_tokens_from_string (s : String) : Nat := (pyWords s.data).length

/-- Ellipsis marker appended by the title truncation. -/
def ellipsisCL : List Char := ['.', '.', '.']

/-- The separator `'.\n'` used by `chunk_content.split('.\n')`. -/
def dotNL : List Char := ['.', '\n']

/-- The chunk-title derivation of cell 17:
`chunk_title = chunk_content.split('.\n')[0].strip()`, then
`chunk_title[:200] + '...'` when its length exceeds 200. -/
def chunkTitleOf (chunk_content : String) : String :=
  let t := pyStripCL (splitHeadOn dotNL chunk_content.data)
  if 200 < t.length then String.mk (t.take 200 ++ ellipsisCL) else String.mk t

/-- Python `s.replace(c, '')` for a one-character pattern: removal of every
occurrence of that character. -/
def removeCharStr (c : Char) (s : String) : String :=
  String.mk (s.data.filter (fun x => x ≠ c))

/-- The staging file name of cell 17:
`f'chunk_{chunk_index}_{page_title}.json'` with each of the characters
`?`, `:`, `'`, `|`, `/`, `\` removed by the chained `.replace(…, '')`
calls, in source order. -/
def chunkFileName (chunk_index : Nat) (page_title : String) : String :=
  removeCharStr '\\' (removeCharStr '/' (removeCharStr '|' (removeCharStr (Char.ofNat 39)
    (removeCharStr ':' (removeCharStr '?'
      ("chunk_" ++ toString chunk_index ++ "_" ++ page_title ++ ".json"))))))

/-- Stem part of `os.path.splitext(filename)[0]`: the name minus its last
extension, where leading dots never start an extension. -/
def splitextStem (f : String) : String :=
  let cs := f.data
  let lead := cs.takeWhile (fun c => c = '.')
  let revRest := (cs.dropWhile (fun c => c = '.')).reverse
  if revRest.contains '.' then
    String.mk (lead ++ (revRest.drop ((revRest.takeWhile (fun c => c ≠ '.')).length + 1)).reverse)
  else f

/-- The supported extensions tuple of cell 17 (and the branch conditions of
`extract_text_from_file`): `('.pdf', '.docx', '.csv', '.xlsx')` tested via
`endswith`. -/
def isSupportedName (filename : String) : Bool :=
  pyEndsWith filename ".pdf" || pyEndsWith filename ".docx" ||
  pyEndsWith filename ".csv" || pyEndsWith filename ".xlsx"

/-- A chunk record as serialized by cell 17.  The vector type is a
parameter: the embedding service is an external collaborator and its
output is never inspected by the pipeline. -/
structure Chunk (V : Type) where
  id : String
  page_title : String
  chunk_title : String
  chunk_content : String
  vector : V
deriving DecidableEq

/-- Observable outcome of (a part of) an ingestion run: the staged files
in write order (staging file name with the chunk it holds), the value of
the global `chunk_index` counter afterwards, and whether an uncaught
exception was raised (which in the notebook aborts the whole run).
`calls` records the texts sent to the embedding service. -/
structure PipeOut (V : Type) where
  written : List (String × Chunk V)
  nextIdx : Nat
  calls : List String
  raised : Bool
deriving DecidableEq

/-- The inner chunk loop of cell 17 over one document's extracted
paragraphs: increment the global counter, normalize, gate on the token
ceiling with `break` on overflow, embed (an embedding failure is an
uncaught exception), derive the title, and stage the chunk.  `embed` is
the external embedding service (`none` = service failure) and `idGen` the
external uuid generator, fed with the chunk index. -/
def processDoc {V : Type} (embed : String → Option V) (idGen : Nat → String)
    (pt : String) : Nat → List String → PipeOut V
  | idx, [] => ⟨[], idx, [], false⟩
  | idx, chunk :: rest =>
    let content := clean_markdown_content (pyStripStr chunk)
    if 8191 < num_tokens_from_string content then
      ⟨[], idx + 1, [], false⟩
    else
      match embed content with
      | none => ⟨[], idx + 1, [content], true⟩
      | some v =>
        let out := processDoc embed idGen pt (idx + 1) rest
        ⟨(chunkFileName (idx + 1) pt,
            ⟨idGen (idx + 1), pt, chunkTitleOf content, content, v⟩) :: out.written,
          out.nextIdx, content :: out.calls, out.raised⟩

/-- The outer directory loop of cell 17: skip files whose name does not
end in a supported extension, otherwise chunk the document; an uncaught
exception inside a document aborts the remainder of the run.  Each
document is given as its file name together with the paragraph list the
text extractor produced for it. -/
def runIngestion {V : Type} (embed : String → Option V) (idGen : Nat → String) :
    Nat → List (String × List String) → PipeOut V
  | idx, [] => ⟨[], idx, [], false⟩
  | idx, (filename, paras) :: rest =>
    if isSupportedName filename then
      let d := processDoc embed idGen (splitextStem filename) idx paras
      if d.raised then d
      else
        let r := runIngestion embed idGen d.nextIdx rest
        ⟨d.written ++ r.written, r.nextIdx, d.calls ++ r.calls, r.raised⟩
    else runIngestion embed idGen idx rest

/-- Errors raised by `extract_text_from_file`: `FileNotFoundError` and the
`ValueError` for unsupported file types. -/
inductive ExtractErr where
  | notFound
  | unsupported
deriving DecidableEq

/-- Fuelled scanner for Python `s.split(pat)` with a non-empty separator:
non-overlapping leftmost occurrences of `pat` split the list, empty
segments are kept.  Each step consumes at least one character. -/
def splitSubAux (pat : List Char) : Nat → List Char → List Char → List (List Char)
  | _, [], cur => [cur.reverse]
  | 0, l, cur => [cur.reverse ++ l]
  | n + 1, c :: cs, cur =>
    if isPre pat (c :: cs) then
      cur.reverse :: splitSubAux pat n ((c :: cs).drop pat.length) []
    else splitSubAux pat n cs (c :: cur)

/-- Python `content.split(pat)` on strings, for a non-empty separator. -/
def pySplitStr (pat s : String) : List String :=
  (splitSubAux pat.data s.data.length s.data []).map String.mk

/-- The content produced by the format-specific branch of
`extract_text_from_file` that fires for this path (the four extractors are
external collaborators, passed as functions). -/
def dispatchRaw (pdfRaw docxRaw csvRaw xlsxRaw : String → String) (file_path : String) : String :=
  if pyEndsWith file_path ".pdf" then pdfRaw file_path
  else if pyEndsWith file_path ".docx" then docxRaw file_path
  else if pyEndsWith file_path ".csv" then csvRaw file_path
  else if pyEndsWith file_path ".xlsx" then xlsxRaw file_path
  else ""

/-- The final `return content.split('\n\n') if content else None` of
`extract_text_from_file`. -/
def packExtract (content : String) : Except ExtractErr (Option (List String)) :=
  Except.ok (if content = "" then none else some (pySplitStr "\n\n" content))

/-- The notebook's `extract_text_from_file`: raise `FileNotFoundError` when
the path does not exist, dispatch on the extension with a `ValueError` for
unsupported types, and return the double-newline split of the extracted
content — or `None` when that content is empty.  `fsExists` is the
external file system, the four `…Raw` functions the external format
extractors. -/
def extract_text_from_file (fsExists : String → Bool)
    (pdfRaw docxRaw csvRaw xlsxRaw : String → String) (file_path : String) :
    Except ExtractErr (Option (List String)) :=
  if fsExists file_path = false then Except.error ExtractErr.notFound
  else if pyEndsWith file_path ".pdf" then packExtract (pdfRaw file_path)
  else if pyEndsWith file_path ".docx" then packExtract (docxRaw file_path)
  else if pyEndsWith file_path ".csv" then packExtract (csvRaw file_path)
  else if pyEndsWith file_path ".xlsx" then packExtract (xlsxRaw file_path)
  else Except.error ExtractErr.unsupported

/-- An embedding service that always succeeds, and a fixed id generator:
used to instantiate the pipeline at concrete inputs. -/
def okEmbed : String → Option Unit := fun _ => some ()

/-- A fixed id generator for concrete instantiations. -/
def idGen0 : Nat → String := fun n => toString n

/-- Derived title following the words of the specification: the substring
of the PRE-normalization candidate content preceding the first occurrence
of a period followed by a newline, truncated to 200 characters plus an
ellipsis marker iff that substring exceeds 200 characters.  Stated for
comparison with the pipeline's actual `chunkTitleOf`. -/
def specDerivedTitle (pre : String) : String :=
  if 200 < (splitHeadOn dotNL pre.data).length
  then String.mk ((splitHeadOn dotNL pre.data).take 200 ++ ellipsisCL)
  else String.mk (splitHeadOn dotNL pre.data)

/-- An embedding service failing exactly on the text "boom": exhibits a
per-chunk service failure. -/
def embedCE : String → Option Unit := fun s => if s = "boom" then none else some ()

/-- An embedding service that always fails. -/
def embedFail : String → Option Unit := fun _ => none

/-- Character list holding n+1 copies of the word "a" separated by single
blanks: a concrete text with an arbitrary word count. -/
def wdata : Nat → List Char
  | 0 => ['a']
  | n + 1 => 'a' :: ' ' :: wdata n

theorem isPre_dotNL_mem {l : List Char} (h : isPre dotNL l = true) : '\n' ∈ l := by
  match l with
  | [] => simp [isPre, dotNL] at h
  | [c] => simp [isPre, dotNL] at h
  | c :: d :: cs =>
    simp only [dotNL, isPre, Bool.and_eq_true, beq_iff_eq] at h
    exact List.mem_cons_of_mem c (h.2.1 ▸ List.mem_cons_self d cs)

theorem splitHeadOn_dotNL_of_no_newline : ∀ {l : List Char}, '\n' ∉ l → splitHeadOn dotNL l = l
  | [], _ => rfl
  | c :: cs, h => by
    rw [splitHeadOn, if_neg (fun hp => h (isPre_dotNL_mem hp)),
      splitHeadOn_dotNL_of_no_newline (fun hm => h (List.mem_cons_of_mem c hm))]

theorem clean_no_newline (s : String) : '\n' ∉ (clean_markdown_content s).data := by
  intro hm
  have := (List.mem_filter.mp hm).2
  simp at this

theorem matchLink_eq_none {c : Char} {cs : List Char} (h : c ≠ '[') :
    matchLink (c :: cs) = none := by
  simp [matchLink, h]

theorem matchImage_eq_none : ∀ {l : List Char}, '[' ∉ l → matchImage l = none
  | [], _ => rfl
  | [c], _ => rfl
  | c1 :: c2 :: cs, h => by
    have h2 : c2 ≠ '[' := fun e => h (e ▸ List.mem_cons_of_mem c1 (List.mem_cons_self c2 cs))
    by_cases h1 : c1 = '!' <;> simp [matchImage, h1, h2]

theorem subLinksF_of_no_bracket : ∀ (n : Nat) (l : List Char), '[' ∉ l → subLinksF n l = l
  | 0, _, _ => rfl
  | _ + 1, [], _ => rfl
  | n + 1, c :: cs, h => by
    have hc : c ≠ '[' := fun e => h (e ▸ List.mem_cons_self c cs)
    rw [subLinksF, matchLink_eq_none hc]
    exact congrArg (c :: ·) (subLinksF_of_no_bracket n cs (fun hm => h (List.mem_cons_of_mem c hm)))

theorem subImagesF_of_no_bracket : ∀ (n : Nat) (l : List Char), '[' ∉ l → subImagesF n l = l
  | 0, _, _ => rfl
  | _ + 1, [], _ => rfl
  | n + 1, c :: cs, h => by
    rw [subImagesF, matchImage_eq_none h]
    exact congrArg (c :: ·) (subImagesF_of_no_bracket n cs (fun hm => h (List.mem_cons_of_mem c hm)))

theorem removeStars_of_no_star : ∀ (l : List Char), '*' ∉ l → removeStars l = l
  | [], _ => rfl
  | [_], _ => rfl
  | c :: d :: cs, h => by
    have hc : c ≠ '*' := fun e => h (e ▸ List.mem_cons_self c (d :: cs))
    rw [removeStars, if_neg (fun hcd => hc hcd.1)]
    exact congrArg (c :: ·)
      (removeStars_of_no_star (d :: cs) (fun hm => h (List.mem_cons_of_mem c hm)))

theorem clean_of_plain {l : List Char} (hb : '[' ∉ l) (hs : '*' ∉ l) :
    clean_markdown_content (String.mk l) = String.mk (l.filter (fun c => c ≠ '\n')) := by
  unfold clean_markdown_content
  rw [show (String.mk l).data = l from rfl]
  simp only [subLinks, subImages]
  rw [subLinksF_of_no_bracket _ _ hb, subImagesF_of_no_bracket _ _ hb,
    removeStars_of_no_star _ hs]

/-- C2 (amended): the normalizer is idempotent on every string that
contains neither `[` nor `*`; outside that fragment idempotence can fail
(see the counterexample). -/
theorem C2_normalizer_idempotent_on_bracket_star_free (s : String)
    (h : ∀ c ∈ s.data, c ≠ '[' ∧ c ≠ '*') :
    clean_markdown_content (clean_markdown_content s) = clean_markdown_content s := by
  have hb : '[' ∉ s.data := fun hm => (h _ hm).1 rfl
  have hs : '*' ∉ s.data := fun hm => (h _ hm).2 rfl
  have e1 : clean_markdown_content s = String.mk (s.data.filter (fun c => c ≠ '\n')) := by
    have := clean_of_plain hb hs
    rwa [show String.mk s.data = s from rfl] at this
  have hsub : ∀ c ∈ s.data.filter (fun c => c ≠ '\n'), c ∈ s.data :=
    fun c hc => (List.mem_filter.mp hc).1
  have hb2 : '[' ∉ s.data.filter (fun c => c ≠ '\n') := fun hm => hb (hsub _ hm)
  have hs2 : '*' ∉ s.data.filter (fun c => c ≠ '\n') := fun hm => hs (hsub _ hm)
  rw [e1, clean_of_plain hb2 hs2]
  congr 1
  rw [List.filter_filter]
  exact List.filter_congr (fun c _ => by by_cases hc : c = '\n' <;> simp [hc])

/-- C2 (counterexample): the normalizer is not idempotent as claimed; on
the three-character string `*`, newline, `*` the first pass removes only
the newline, leaving `**`, which a second pass removes entirely. -/
theorem C2_counterexample :
    clean_markdown_content (clean_markdown_content "*\n*") ≠ clean_markdown_content "*\n*" := by
  decide

/-- C2 (witness): idempotence at the concrete bracket- and star-free
string "a\nb". -/
theorem C2_witness :
    clean_markdown_content (clean_markdown_content "a\nb") = clean_markdown_content "a\nb" :=
  C2_normalizer_idempotent_on_bracket_star_free "a\nb" (by decide)

/-- C3 (amended): the three normalizer example equations as the code
actually computes them: the link rule fires first, so image syntax loses
its link part and keeps the leading `!` — `![alt](http://x)` normalizes to
`!alt`, not to the empty string. -/
theorem C3_normalizer_examples :
    clean_markdown_content "[label](http://x)" = "label" ∧
    clean_markdown_content "![alt](http://x)" = "!alt" ∧
    clean_markdown_content "a**b**c" = "abc" := by
  refine ⟨by decide, by decide, by decide⟩

/-- C3 (counterexample): the claimed equation
`clean_markdown_content "![alt](http://x)" = ""` is false: the result is
`!alt`. -/
theorem C3_counterexample :
    clean_markdown_content "![alt](http://x)" ≠ "" ∧
    clean_markdown_content "![alt](http://x)" = "!alt" := by
  refine ⟨by decide, by decide⟩

/-- C4 (amended): the chunk title is derived from the POST-normalization
content: since normalization removes every newline, the split at `'.\n'`
never fires, and the title is the whitespace-stripped normalized content,
truncated to 200 characters plus `...` exactly when it is longer than
200. -/
theorem C4_title_from_normalized_content (raw : String) :
    chunkTitleOf (clean_markdown_content raw)
      = (if 200 < (pyStripCL (clean_markdown_content raw).data).length
         then String.mk ((pyStripCL (clean_markdown_content raw).data).take 200 ++ ellipsisCL)
         else String.mk (pyStripCL (clean_markdown_content raw).data)) := by
  unfold chunkTitleOf
  rw [splitHeadOn_dotNL_of_no_newline (clean_no_newline raw)]

/-- C4 (counterexample): for the candidate content `"Title.\nBody"` the
claim predicts the title `"Title"` (prefix of the pre-normalization text
before the first `'.\n'`), but the pipeline computes `"Title.Body"`,
because the split is applied to the normalized content, in which the
newline no longer exists. -/
theorem C4_counterexample :
    (runIngestion okEmbed idGen0 0 [("t.pdf", ["Title.\nBody"])]).written.map
        (fun p => p.2.chunk_title) = ["Title.Body"] ∧
    specDerivedTitle "Title.\nBody" = "Title" ∧
    ("Title.Body" : String) ≠ "Title" := by
  refine ⟨by decide, by decide, by decide⟩

theorem chunkTitleOf_of_trunc (content : String)
    (h : 200 < (pyStripCL (splitHeadOn dotNL content.data)).length) :
    (chunkTitleOf content).length ≤ 203 := by
  unfold chunkTitleOf
  rw [if_pos h]
  show ((pyStripCL (splitHeadOn dotNL content.data)).take 200 ++ ellipsisCL).length ≤ 203
  rw [List.length_append, List.length_take]
  simp only [ellipsisCL, List.length_cons, List.length_nil]
  omega

theorem chunkTitleOf_of_no_trunc (content : String)
    (h : (pyStripCL (splitHeadOn dotNL content.data)).length ≤ 200) :
    (chunkTitleOf content).data = pyStripCL (splitHeadOn dotNL content.data) := by
  unfold chunkTitleOf
  rw [if_neg (by omega)]

theorem processDoc_mem {V : Type} (embed : String → Option V) (idGen : Nat → String)
    (pt : String) :
    ∀ (paras : List String) (idx : Nat) (p : String × Chunk V),
      p ∈ (processDoc embed idGen pt idx paras).written →
      num_tokens_from_string p.2.chunk_content ≤ 8191 ∧
      (∃ raw, raw ∈ paras ∧ p.2.chunk_content = clean_markdown_content (pyStripStr raw)) ∧
      p.2.chunk_title = chunkTitleOf p.2.chunk_content ∧
      p.2.page_title = pt ∧
      (∃ k, p.1 = chunkFileName k pt) := by
  intro paras
  induction paras with
  | nil => intro idx p hp; simp [processDoc] at hp
  | cons chunk rest ih =>
    intro idx p hp
    simp only [processDoc] at hp
    split at hp
    · simp at hp
    · next hov =>
      split at hp
      · simp at hp
      · next v hemb =>
        simp only [List.mem_cons] at hp
        cases hp with
        | inl he =>
          subst he
          refine ⟨?_, ⟨chunk, List.mem_cons_self chunk rest, ?_⟩, ?_, ?_, ⟨idx + 1, ?_⟩⟩
          · simpa using Nat.not_lt.mp hov
          · simp
          · simp
          · simp
          · simp
        | inr hm =>
          obtain ⟨h1, ⟨raw, hraw, he⟩, h3, h4, h5⟩ := ih (idx + 1) p hm
          exact ⟨h1, ⟨raw, List.mem_cons_of_mem chunk hraw, he⟩, h3, h4, h5⟩

theorem processDoc_calls_mem {V : Type} (embed : String → Option V) (idGen : Nat → String)
    (pt : String) :
    ∀ (paras : List String) (idx : Nat) (t : String),
      t ∈ (processDoc embed idGen pt idx paras).calls →
      num_tokens_from_string t ≤ 8191 ∧
      ∃ raw, raw ∈ paras ∧ t = clean_markdown_content (pyStripStr raw) := by
  intro paras
  induction paras with
  | nil => intro idx t ht; simp [processDoc] at ht
  | cons chunk rest ih =>
    intro idx t ht
    simp only [processDoc] at ht
    split at ht
    · simp at ht
    · next hov =>
      split at ht
      · next hemb =>
        simp only [List.mem_singleton] at ht
        subst ht
        exact ⟨Nat.not_lt.mp hov, ⟨chunk, List.mem_cons_self chunk rest, rfl⟩⟩
      · next v hemb =>
        simp only [List.mem_cons] at ht
        cases ht with
        | inl he =>
          subst he
          exact ⟨Nat.not_lt.mp hov, ⟨chunk, List.mem_cons_self chunk rest, rfl⟩⟩
        | inr hm =>
          obtain ⟨h1, ⟨raw, hraw, he⟩⟩ := ih (idx + 1) t hm
          exact ⟨h1, ⟨raw, List.mem_cons_of_mem chunk hraw, he⟩⟩

theorem runIngestion_mem {V : Type} (embed : String → Option V) (idGen : Nat → String) :
    ∀ (files : List (String × List String)) (idx : Nat) (p : String × Chunk V),
      p ∈ (runIngestion embed idGen idx files).written →
      ∃ fname paras, (fname, paras) ∈ files ∧ isSupportedName fname = true ∧
        ∃ j, p ∈ (processDoc embed idGen (splitextStem fname) j paras).written := by
  intro files
  induction files with
  | nil => intro idx p hp; simp [runIngestion] at hp
  | cons f rest ih =>
    intro idx p hp
    obtain ⟨fname, paras⟩ := f
    simp only [runIngestion] at hp
    split at hp
    · next hsupp =>
      split at hp
      · exact ⟨fname, paras, List.mem_cons_self _ _, hsupp, idx, hp⟩
      · simp only [List.mem_append] at hp
        cases hp with
        | inl h => exact ⟨fname, paras, List.mem_cons_self _ _, hsupp, idx, h⟩
        | inr h =>
          obtain ⟨fn2, ps2, hmem, hsup2, j, hp2⟩ := ih _ _ h
          exact ⟨fn2, ps2, List.mem_cons_of_mem _ hmem, hsup2, j, hp2⟩
    · obtain ⟨fn2, ps2, hmem, hsup2, j, hp2⟩ := ih _ _ hp
      exact ⟨fn2, ps2, List.mem_cons_of_mem _ hmem, hsup2, j, hp2⟩

theorem runIngestion_calls_mem {V : Type} (embed : String → Option V) (idGen : Nat → String) :
    ∀ (files : List (String × List String)) (idx : Nat) (t : String),
      t ∈ (runIngestion embed idGen idx files).calls →
      ∃ fname paras, (fname, paras) ∈ files ∧
        ∃ j, t ∈ (processDoc embed idGen (splitextStem fname) j paras).calls := by
  intro files
  induction files with
  | nil => intro idx t ht; simp [runIngestion] at ht
  | cons f rest ih =>
    intro idx t ht
    obtain ⟨fname, paras⟩ := f
    simp only [runIngestion] at ht
    split at ht
    · next hsupp =>
      split at ht
      · exact ⟨fname, paras, List.mem_cons_self _ _, idx, ht⟩
      · simp only [List.mem_append] at ht
        cases ht with
        | inl h => exact ⟨fname, paras, List.mem_cons_self _ _, idx, h⟩
        | inr h =>
          obtain ⟨fn2, ps2, hmem, j, ht2⟩ := ih _ _ h
          exact ⟨fn2, ps2, List.mem_cons_of_mem _ hmem, j, ht2⟩
    · obtain ⟨fn2, ps2, hmem, j, ht2⟩ := ih _ _ ht
      exact ⟨fn2, ps2, List.mem_cons_of_mem _ hmem, j, ht2⟩

theorem chunkFileName_chars (k : Nat) (t : String) :
    ∀ c ∈ (chunkFileName k t).data,
      c ≠ '?' ∧ c ≠ ':' ∧ c ≠ Char.ofNat 39 ∧ c ≠ '|' ∧ c ≠ '/' ∧ c ≠ '\\' := by
  intro c hc
  simp only [chunkFileName, removeCharStr, List.mem_filter, decide_eq_true_eq] at hc
  exact ⟨hc.1.1.1.1.1.2, hc.1.1.1.1.2, hc.1.1.1.2, hc.1.1.2, hc.1.2, hc.2⟩

/-- C1: every chunk staged by an ingestion run has a `chunk_content` whose
token count (as measured by the pipeline's `num_tokens_from_string`) is at
most 8191; its content is the full normalized candidate text of one of the
input paragraphs — never a truncation of it — and every text sent to the
embedding service also obeys the ceiling. -/
theorem C1_persisted_chunks_token_bounded {V : Type} (embed : String → Option V)
    (idGen : Nat → String) (idx : Nat) (files : List (String × List String)) :
    (∀ p ∈ (runIngestion embed idGen idx files).written,
        num_tokens_from_string p.2.chunk_content ≤ 8191 ∧
        ∃ fname paras raw, (fname, paras) ∈ files ∧ raw ∈ paras ∧
          p.2.chunk_content = clean_markdown_content (pyStripStr raw)) ∧
    (∀ t ∈ (runIngestion embed idGen idx files).calls,
        num_tokens_from_string t ≤ 8191) := by
  constructor
  · intro p hp
    obtain ⟨fname, paras, hmem, _, j, hp2⟩ := runIngestion_mem embed idGen files idx p hp
    obtain ⟨h1, ⟨raw, hraw, he⟩, _, _, _⟩ := processDoc_mem embed idGen _ paras j p hp2
    exact ⟨h1, fname, paras, raw, hmem, hraw, he⟩
  · intro t ht
    obtain ⟨fname, paras, _, j, ht2⟩ := runIngestion_calls_mem embed idGen files idx t ht
    exact (processDoc_calls_mem embed idGen _ paras j t ht2).1

/-- C1 (witness): the single-document run over "hello world" stages one
chunk, and the theorem yields its token bound and provenance. -/
theorem C1_witness :
    num_tokens_from_string ("hello world" : String) ≤ 8191 ∧
    ∃ fname paras raw, (fname, paras) ∈ [(("a.pdf" : String), ["hello world"])] ∧
      raw ∈ paras ∧ ("hello world" : String) = clean_markdown_content (pyStripStr raw) := by
  have h := (C1_persisted_chunks_token_bounded okEmbed idGen0 0
      [("a.pdf", ["hello world"])]).1
    ("chunk_1_a.json",
      { id := "1", page_title := "a", chunk_title := "hello world",
        chunk_content := "hello world", vector := () })
    (by decide)
  exact h

/-- C5: for every staged chunk, when the derived title (the stripped first
`'.\n'`-segment of its content) exceeds 200 characters the stored
`chunk_title` has length at most 203 (200 characters plus the 3-character
ellipsis), and otherwise the stored `chunk_title` is exactly the derived
title with no characters removed. -/
theorem C5_chunk_title_truncation {V : Type} (embed : String → Option V)
    (idGen : Nat → String) (idx : Nat) (files : List (String × List String))
    (p : String × Chunk V) (hp : p ∈ (runIngestion embed idGen idx files).written) :
    (200 < (pyStripCL (splitHeadOn dotNL p.2.chunk_content.data)).length →
      p.2.chunk_title.length ≤ 203) ∧
    ((pyStripCL (splitHeadOn dotNL p.2.chunk_content.data)).length ≤ 200 →
      p.2.chunk_title.data = pyStripCL (splitHeadOn dotNL p.2.chunk_content.data)) := by
  obtain ⟨fname, paras, _, _, j, hp2⟩ := runIngestion_mem embed idGen files idx p hp
  obtain ⟨_, _, htitle, _, _⟩ := processDoc_mem embed idGen _ paras j p hp2
  rw [htitle]
  exact ⟨chunkTitleOf_of_trunc p.2.chunk_content, chunkTitleOf_of_no_trunc p.2.chunk_content⟩

/-- C5 (witness): the staged chunk of the "hello world" run keeps its full
derived title (no truncation applies). -/
theorem C5_witness :
    ("hello world" : String).data
      = pyStripCL (splitHeadOn dotNL ("hello world" : String).data) := by
  have h := (C5_chunk_title_truncation okEmbed idGen0 0 [("a.pdf", ["hello world"])]
    ("chunk_1_a.json",
      { id := "1", page_title := "a", chunk_title := "hello world",
        chunk_content := "hello world", vector := () })
    (by decide)).2 (by decide)
  exact h

/-- C9: every staged chunk's file name is `chunk_{chunk_index}_{page_title}.json`
with every occurrence of the six characters `?`, `:`, `'`, `|`, `/`, `\`
removed, so the resulting name contains none of them. -/
theorem C9_staging_file_name_sanitized {V : Type} (embed : String → Option V)
    (idGen : Nat → String) (idx : Nat) (files : List (String × List String))
    (p : String × Chunk V) (hp : p ∈ (runIngestion embed idGen idx files).written) :
    (∃ k, p.1 = chunkFileName k p.2.page_title) ∧
    ∀ c ∈ p.1.data,
      c ≠ '?' ∧ c ≠ ':' ∧ c ≠ Char.ofNat 39 ∧ c ≠ '|' ∧ c ≠ '/' ∧ c ≠ '\\' := by
  obtain ⟨fname, paras, _, _, j, hp2⟩ := runIngestion_mem embed idGen files idx p hp
  obtain ⟨_, _, _, hpt, k, hname⟩ := processDoc_mem embed idGen _ paras j p hp2
  constructor
  · exact ⟨k, by rw [hname, hpt]⟩
  · intro c hc
    rw [hname] at hc
    exact chunkFileName_chars k _ c hc

/-- C9 (witness): the file name staged by the "hello world" run is a
sanitized `chunk_1_a.json`, and its character `c` is none of the six
stripped characters. -/
theorem C9_witness :
    (∃ k, ("chunk_1_a.json" : String) = chunkFileName k "a") ∧
    ('c' ≠ '?' ∧ 'c' ≠ ':' ∧ 'c' ≠ Char.ofNat 39 ∧ 'c' ≠ '|' ∧ 'c' ≠ '/' ∧ 'c' ≠ '\\') := by
  have h := C9_staging_file_name_sanitized okEmbed idGen0 0 [("a.pdf", ["hello world"])]
    ("chunk_1_a.json",
      { id := "1", page_title := "a", chunk_title := "hello world",
        chunk_content := "hello world", vector := () })
    (by decide)
  exact ⟨h.1, h.2 'c' (by decide)⟩

theorem processDoc_not_raised {V : Type} (embed : String → Option V) (idGen : Nat → String)
    (pt : String) (hok : ∀ s, embed s ≠ none) :
    ∀ (paras : List String) (idx : Nat),
      (processDoc embed idGen pt idx paras).raised = false := by
  intro paras
  induction paras with
  | nil => intro idx; rfl
  | cons chunk rest ih =>
    intro idx
    simp only [processDoc]
    split
    · rfl
    · cases hemb : embed (clean_markdown_content (pyStripStr chunk)) with
      | none => exact absurd hemb (hok _)
      | some v => simp [ih]

theorem processDoc_overflow_len {V : Type} (embed : String → Option V) (idGen : Nat → String)
    (pt : String) (hok : ∀ s, embed s ≠ none) :
    ∀ (paras : List String) (idx : Nat) (i : Nat) (hi : i < paras.length),
      8191 < num_tokens_from_string (clean_markdown_content
        (pyStripStr (paras.get ⟨i, hi⟩))) →
      (processDoc embed idGen pt idx paras).written.length ≤ i ∧
      (processDoc embed idGen pt idx paras).calls.length ≤ i := by
  intro paras
  induction paras with
  | nil => intro idx i hi; simp at hi
  | cons chunk rest ih =>
    intro idx i hi hov
    simp only [processDoc]
    split
    · simp
    · next hnov =>
      cases i with
      | zero => exact absurd hov hnov
      | succ i2 =>
        cases hemb : embed (clean_markdown_content (pyStripStr chunk)) with
        | none => exact absurd hemb (hok _)
        | some v =>
          have hi2 : i2 < rest.length := Nat.lt_of_succ_lt_succ hi
          have hov2 : 8191 < num_tokens_from_string (clean_markdown_content
              (pyStripStr (rest.get ⟨i2, hi2⟩))) := by
            simpa using hov
          have hrec := ih (idx + 1) i2 hi2 hov2
          simp only [List.length_cons]
          exact ⟨Nat.succ_le_succ hrec.1, Nat.succ_le_succ hrec.2⟩

/-- C6: first-overflow-aborts-document.  If the candidate at position `i`
of a document's paragraph list exceeds 8191 tokens, then (assuming the
embedding service itself does not fail) at most the `i` earlier candidates
are staged and at most `i` embedding calls are made — nothing at any later
position `j > i` is embedded or written — while the outer directory loop
still processes the remaining documents. -/
theorem C6_first_overflow_aborts_document {V : Type} (embed : String → Option V)
    (idGen : Nat → String) (hok : ∀ s, embed s ≠ none) (pt : String) (idx : Nat)
    (paras : List String) (i : Nat) (hi : i < paras.length)
    (hov : 8191 < num_tokens_from_string (clean_markdown_content
      (pyStripStr (paras.get ⟨i, hi⟩)))) :
    (processDoc embed idGen pt idx paras).written.length ≤ i ∧
    (processDoc embed idGen pt idx paras).calls.length ≤ i ∧
    (∀ fname rest, isSupportedName fname = true →
      (runIngestion embed idGen idx ((fname, paras) :: rest)).written
        = (processDoc embed idGen (splitextStem fname) idx paras).written
          ++ (runIngestion embed idGen
                (processDoc embed idGen (splitextStem fname) idx paras).nextIdx rest).written) := by
  have h := processDoc_overflow_len embed idGen pt hok paras idx i hi hov
  refine ⟨h.1, h.2, ?_⟩
  intro fname rest hsupp
  simp only [runIngestion, hsupp, if_true,
    processDoc_not_raised embed idGen (splitextStem fname) hok paras idx,
    Bool.false_eq_true, if_false]

theorem wdata_chars : ∀ (n : Nat), ∀ c ∈ wdata n, c = 'a' ∨ c = ' '
  | 0, c, hc => by
    simp only [wdata, List.mem_singleton] at hc
    exact Or.inl hc
  | n + 1, c, hc => by
    simp only [wdata, List.mem_cons] at hc
    rcases hc with h | h | h
    · exact Or.inl h
    · exact Or.inr h
    · exact wdata_chars n c h

theorem wdata_eq_append : ∀ (n : Nat), ∃ t, wdata n = t ++ ['a']
  | 0 => ⟨[], rfl⟩
  | n + 1 => by
    obtain ⟨t, ht⟩ := wdata_eq_append n
    exact ⟨'a' :: ' ' :: t, by rw [wdata, ht]; rfl⟩

theorem pyStripCL_wdata (n : Nat) : pyStripCL (wdata n) = wdata n := by
  have hd : (wdata n).dropWhile isPySpace = wdata n := by
    cases n <;> rfl
  obtain ⟨t, ht⟩ := wdata_eq_append n
  unfold pyStripCL
  rw [hd, ht, List.reverse_append]
  rw [show List.reverse ['a'] ++ t.reverse = 'a' :: t.reverse from rfl]
  rw [show List.dropWhile isPySpace ('a' :: t.reverse) = 'a' :: t.reverse from rfl]
  simp

theorem clean_wdata (n : Nat) :
    clean_markdown_content (String.mk (wdata n)) = String.mk (wdata n) := by
  have hb : '[' ∉ wdata n := fun hm => by
    rcases wdata_chars n _ hm with h | h <;> exact absurd h (by decide)
  have hs : '*' ∉ wdata n := fun hm => by
    rcases wdata_chars n _ hm with h | h <;> exact absurd h (by decide)
  rw [clean_of_plain hb hs]
  congr 1
  refine List.filter_eq_self.mpr (fun c hc => ?_)
  rcases wdata_chars n c hc with h | h <;> subst h <;> decide

theorem pyWords_wdata : ∀ (n : Nat), (pyWords (wdata n)).length = n + 1
  | 0 => rfl
  | n + 1 => by
    have h1 : pyWords (wdata (n + 1)) = ['a'] :: pyWords (wdata n) := rfl
    rw [h1, List.length_cons, pyWords_wdata n]

theorem tokens_wdata (n : Nat) :
    num_tokens_from_string (clean_markdown_content (pyStripStr (String.mk (wdata n))))
      = n + 1 := by
  have hstrip : pyStripStr (String.mk (wdata n)) = String.mk (wdata n) := by
    unfold pyStripStr
    rw [show (String.mk (wdata n)).data = wdata n from rfl, pyStripCL_wdata]
  rw [hstrip, clean_wdata]
  exact pyWords_wdata n

/-- C6 (witness): a document whose single paragraph holds 8192 words
overflows at position 0, so nothing of it is written or embedded, and the
directory loop still recurses into the rest of the directory. -/
theorem C6_witness :
    (processDoc okEmbed idGen0 "a" 0 [String.mk (wdata 8191)]).written.length ≤ 0 ∧
    (processDoc okEmbed idGen0 "a" 0 [String.mk (wdata 8191)]).calls.length ≤ 0 ∧
    (runIngestion okEmbed idGen0 0 [("a.pdf", [String.mk (wdata 8191)])]).written
      = (processDoc okEmbed idGen0 (splitextStem "a.pdf") 0 [String.mk (wdata 8191)]).written
        ++ (runIngestion okEmbed idGen0
              (processDoc okEmbed idGen0 (splitextStem "a.pdf") 0
                [String.mk (wdata 8191)]).nextIdx []).written := by
  have h := C6_first_overflow_aborts_document okEmbed idGen0
    (fun s => by simp [okEmbed]) "a" 0 [String.mk (wdata 8191)] 0 (by simp)
    (by rw [show ([String.mk (wdata 8191)].get ⟨0, by simp⟩) = String.mk (wdata 8191) from rfl,
          tokens_wdata]; omega)
  exact ⟨h.1, h.2.1, h.2.2 "a.pdf" [] (by decide)⟩

/-- C7 (amended): `extract_text_from_file` fails with the not-found error
exactly when the path does not exist; fails with the unsupported-format
error exactly when the path exists but does not end in one of
`.pdf`, `.docx`, `.csv`, `.xlsx`; and otherwise returns the
double-newline-delimited blocks of the dispatched extractor's content when
that content is non-empty — but `None` (no block list) when it is
empty. -/
theorem C7_extract_dispatch (fsExists : String → Bool)
    (pdfRaw docxRaw csvRaw xlsxRaw : String → String) (path : String) :
    (extract_text_from_file fsExists pdfRaw docxRaw csvRaw xlsxRaw path
        = Except.error ExtractErr.notFound ↔ fsExists path = false) ∧
    (extract_text_from_file fsExists pdfRaw docxRaw csvRaw xlsxRaw path
        = Except.error ExtractErr.unsupported
      ↔ (fsExists path = true ∧ isSupportedName path = false)) ∧
    (fsExists path = true → isSupportedName path = true →
      ((dispatchRaw pdfRaw docxRaw csvRaw xlsxRaw path = "" ∧
          extract_text_from_file fsExists pdfRaw docxRaw csvRaw xlsxRaw path
            = Except.ok none) ∨
       (dispatchRaw pdfRaw docxRaw csvRaw xlsxRaw path ≠ "" ∧
          extract_text_from_file fsExists pdfRaw docxRaw csvRaw xlsxRaw path
            = Except.ok (some (pySplitStr "\n\n"
                (dispatchRaw pdfRaw docxRaw csvRaw xlsxRaw path)))))) := by
  unfold extract_text_from_file dispatchRaw isSupportedName packExtract
  cases hfs : fsExists path <;>
    cases h1 : pyEndsWith path ".pdf" <;>
    cases h2 : pyEndsWith path ".docx" <;>
    cases h3 : pyEndsWith path ".csv" <;>
    cases h4 : pyEndsWith path ".xlsx" <;>
    simp [hfs, h1, h2, h3, h4] <;>
    first
      | (by_cases hr : pdfRaw path = "" <;> simp [hr])
      | (by_cases hr : docxRaw path = "" <;> simp [hr])
      | (by_cases hr : csvRaw path = "" <;> simp [hr])
      | (by_cases hr : xlsxRaw path = "" <;> simp [hr])

/-- C7 (counterexample): a supported, existing file whose extracted
content is empty makes `extract_text_from_file` return `None` instead of a
sequence of strings, refuting the claim's "in all other cases returns a
sequence" at a concrete input. -/
theorem C7_counterexample :
    extract_text_from_file (fun _ => true) (fun _ => "") (fun _ => "") (fun _ => "")
        (fun _ => "") "a.csv" = Except.ok none ∧
    ¬ ∃ blocks : List String,
        extract_text_from_file (fun _ => true) (fun _ => "") (fun _ => "") (fun _ => "")
          (fun _ => "") "a.csv" = Except.ok (some blocks) := by
  have h0 : extract_text_from_file (fun _ => true) (fun _ => "") (fun _ => "") (fun _ => "")
      (fun _ => "") "a.csv" = Except.ok none := rfl
  refine ⟨h0, ?_⟩
  rintro ⟨b, hb⟩
  rw [h0] at hb
  simp at hb

/-- C7 (witness): the amended theorem applied at an existing `.csv` path
with an empty extraction result. -/
theorem C7_witness :
    (dispatchRaw (fun _ => "") (fun _ => "") (fun _ => "") (fun _ => "") "a.csv" = "" ∧
      extract_text_from_file (fun _ => true) (fun _ => "") (fun _ => "") (fun _ => "")
        (fun _ => "") "a.csv" = Except.ok none) ∨
    (dispatchRaw (fun _ => "") (fun _ => "") (fun _ => "") (fun _ => "") "a.csv" ≠ "" ∧
      extract_text_from_file (fun _ => true) (fun _ => "") (fun _ => "") (fun _ => "")
        (fun _ => "") "a.csv"
        = Except.ok (some (pySplitStr "\n\n"
            (dispatchRaw (fun _ => "") (fun _ => "") (fun _ => "") (fun _ => "") "a.csv")))) :=
  (C7_extract_dispatch (fun _ => true) (fun _ => "") (fun _ => "") (fun _ => "")
    (fun _ => "") "a.csv").2.2 rfl (by decide)

/-- C8 (amended): a file whose name lacks a supported extension is
silently skipped by the directory loop's filter — the remaining documents
are still processed and no unsupported-format error can even arise inside
the loop — but a per-chunk embedding failure is an uncaught exception that
aborts the entire run: no remaining document is processed after it. -/
theorem C8_per_document_failure_policy {V : Type} (embed : String → Option V)
    (idGen : Nat → String) (idx : Nat) (fname : String) (paras : List String)
    (rest : List (String × List String)) :
    (isSupportedName fname = false →
      runIngestion embed idGen idx ((fname, paras) :: rest)
        = runIngestion embed idGen idx rest) ∧
    (isSupportedName fname = true →
      (processDoc embed idGen (splitextStem fname) idx paras).raised = true →
      runIngestion embed idGen idx ((fname, paras) :: rest)
        = processDoc embed idGen (splitextStem fname) idx paras) := by
  constructor
  · intro h
    simp [runIngestion, h]
  · intro h1 h2
    simp [runIngestion, h1, h2]

/-- C8 (counterexample): an embedding service failure on the single chunk
of the first document aborts the whole run — the second document, which in
isolation yields one staged chunk, is never processed — refuting the claim
that per-chunk errors never abort the run. -/
theorem C8_counterexample :
    (runIngestion embedCE idGen0 0 [("a.pdf", ["boom"]), ("b.pdf", ["fine"])]).written = [] ∧
    (runIngestion embedCE idGen0 0 [("a.pdf", ["boom"]), ("b.pdf", ["fine"])]).raised = true ∧
    (runIngestion embedCE idGen0 0 [("b.pdf", ["fine"])]).written.length = 1 := by
  refine ⟨rfl, rfl, rfl⟩

/-- C8 (witness): the amended theorem applied to a skipped `.txt` file and
to an aborting embedding failure on an `.pdf` file. -/
theorem C8_witness :
    (runIngestion okEmbed idGen0 0 [("a.txt", ["x"]), ("b.pdf", ["y"])]
        = runIngestion okEmbed idGen0 0 [("b.pdf", ["y"])]) ∧
    (runIngestion embedFail idGen0 0 [("a.pdf", ["x"])]
        = processDoc embedFail idGen0 (splitextStem "a.pdf") 0 ["x"]) := by
  constructor
  · exact (C8_per_document_failure_policy okEmbed idGen0 0 "a.txt" ["x"]
      [("b.pdf", ["y"])]).1 (by decide)
  · exact (C8_per_document_failure_policy embedFail idGen0 0 "a.pdf" ["x"] []).2
      (by decide) rfl

theorem pyWordsAux_all_space : ∀ (l : List Char), (∀ c ∈ l, isPySpace c = true) →
    pyWordsAux l [] = []
  | [], _ => rfl
  | c :: cs, h => by
    have hc : isPySpace c = true := h c (List.mem_cons_self c cs)
    rw [pyWordsAux, if_pos hc]
    rw [show ([] : List Char).isEmpty = true from rfl, if_pos rfl]
    exact pyWordsAux_all_space cs (fun d hd => h d (List.mem_cons_of_mem c hd))

/-- C10: the token counter used by the chunking loop is the shadowing
word-count redefinition: it is the number of whitespace-separated words, a
pure total function into the natural numbers, it returns 0 on every
all-whitespace string, and on "tiktoken is great!" it counts 3 words (the
cl100k_base tiktoken encoding of the same text has 6 tokens), so the 8191
ceiling is enforced in words, not in embedding-model tokens. -/
theorem C10_token_counter_is_word_count :
    (∀ s : String, num_tokens_from_string s = (pyWords s.data).length) ∧
    (∀ s : String, (∀ c ∈ s.data, isPySpace c = true) → num_tokens_from_string s = 0) ∧
    num_tokens_from_string "tiktoken is great!" = 3 := by
  refine ⟨fun s => rfl, fun s h => ?_, by decide⟩
  show (pyWordsAux s.data []).length = 0
  rw [pyWordsAux_all_space s.data h]
  rfl

/-- C10 (witness): the all-whitespace string of a blank, tab, newline and
blank counts zero tokens. -/
theorem C10_witness : num_tokens_from_string " \t\n " = 0 :=
  (C10_token_counter_is_word_count).2.1 " \t\n " (by decide)
